import Mathlib

/-!
Shallow embedding of `src/backend.py` (a websocket broadcast-chat server).

The server keeps two pieces of global state:
  * `CONNECTIONS` — a Python `set` of live client handles;
  * `CHAT_HISTORY` — a list of past messages, bounded by `MAX_HISTORY = 50`.

We model client handles as `Nat` (identity only), parsed JSON payloads as the
inductive `JVal`, and the Python set `CONNECTIONS` as a duplicate-free `List Nat`
(Python sets never hold duplicates; iteration order is stable while the set is
not mutated, which is what `broadcast`'s `zip(CONNECTIONS, results)` relies on).

Inbound frames are modelled post-parse: a frame is `Option JVal`, where `none`
stands for a frame on which `json.loads` raises `JSONDecodeError`.  The dynamic
typing of the validation line

    all(key in message for key in ["user", "text"]) and message["text"].strip()

is modelled faithfully, including the Python `in` operator on dicts, strings and
lists, and the exceptions (`TypeError`, `AttributeError`) those operations raise
on values of the wrong shape.  Timestamps (`asyncio.get_event_loop().time()`,
a float) are modelled as `Int`; no claim depends on fractional values.

Send failures during fan-out are modelled by a function `fails : Nat → Bool`
saying which handles' `send` raises during that broadcast.
-/

/-- A parsed JSON value, the result of `json.loads` on an inbound frame. -/
inductive JVal where
  | jnull : JVal
  | jbool (b : Bool) : JVal
  | jnum (n : Int) : JVal
  | jstr (s : String) : JVal
  | jarr (elems : List JVal) : JVal
  | jobj (fields : List (String × JVal)) : JVal

/-- Python exceptions that the modelled code can raise. -/
inductive PyExn where
  | jsonDecodeError : PyExn
  | typeError : PyExn
  | attributeError : PyExn
  | keyError : PyExn
deriving DecidableEq

/-- Decides whether the character list `pat` is a prefix of `l`. -/
def listIsPrefix : List Char → List Char → Bool
  | [], _ => true
  | _ :: _, [] => false
  | a :: as, b :: bs => a == b && listIsPrefix as bs

/-- Decides whether the character list `pat` occurs contiguously inside `l`
(Python substring containment `pat in s`). -/
def listHasInfix (pat : List Char) : List Char → Bool
  | [] => listIsPrefix pat []
  | b :: bs => listIsPrefix pat (b :: bs) || listHasInfix pat bs

/-- Python `key in v`: key membership for dicts, substring test for strings,
element equality for lists; `TypeError` for values that are not containers
(`int`, `bool`, `None`). -/
def pyContains (key : String) : JVal → Except PyExn Bool
  | JVal.jobj kvs => Except.ok (kvs.any (fun kv => kv.1 == key))
  | JVal.jstr s => Except.ok (listHasInfix key.toList s.toList)
  | JVal.jarr xs =>
      Except.ok (xs.any (fun v => match v with | JVal.jstr t => t == key | _ => false))
  | _ => Except.error PyExn.typeError

/-- First binding of `k` in an association list (Python dicts have unique keys,
so this is plain dict lookup). -/
def lookupKey (k : String) : List (String × JVal) → Option JVal
  | [] => none
  | kv :: rest => if kv.1 == k then some kv.2 else lookupKey k rest

/-- Python `v[key]` with a string key: dict lookup (`KeyError` when absent);
`TypeError` on strings and lists (string/list indices must be integers) and on
non-containers. -/
def pyGetItem (v : JVal) (key : String) : Except PyExn JVal :=
  match v with
  | JVal.jobj kvs =>
      match lookupKey key kvs with
      | some x => Except.ok x
      | none => Except.error PyExn.keyError
  | _ => Except.error PyExn.typeError

/-- Python `str.strip()` with no argument: remove leading and trailing
whitespace characters. -/
def pyStripStr (s : String) : String :=
  String.mk (((s.data.dropWhile Char.isWhitespace).reverse.dropWhile Char.isWhitespace).reverse)

/-- Python `v.strip()`: whitespace trim on strings, `AttributeError` otherwise. -/
def pyStrip : JVal → Except PyExn String
  | JVal.jstr s => Except.ok (pyStripStr s)
  | _ => Except.error PyExn.attributeError

/-- The handler's validation expression, evaluated exactly in Python's order:
`all(key in message for key in ["user", "text"]) and message["text"].strip()`.
Returns `ok (some s)` with the stripped text when the message is accepted,
`ok none` when it is rejected without an exception, and `error e` when the
expression itself raises. -/
def checkMessage (v : JVal) : Except PyExn (Option String) :=
  match pyContains "user" v with
  | Except.error e => Except.error e
  | Except.ok false => Except.ok none
  | Except.ok true =>
    match pyContains "text" v with
    | Except.error e => Except.error e
    | Except.ok false => Except.ok none
    | Except.ok true =>
      match pyGetItem v "text" with
      | Except.error e => Except.error e
      | Except.ok tv =>
        match pyStrip tv with
        | Except.error e => Except.error e
        | Except.ok s => if s == "" then Except.ok none else Except.ok (some s)

/-- Python dict assignment `d[key] = val`: replaces the value in place when the
key is present (keeping its position), appends a new binding otherwise. -/
def setKey (key : String) (val : JVal) (kvs : List (String × JVal)) :
    List (String × JVal) :=
  if kvs.any (fun kv => kv.1 == key) then
    kvs.map (fun kv => if kv.1 == key then (kv.1, val) else kv)
  else
    kvs ++ [(key, val)]

/-- The two mutations the handler performs on an accepted message:
`message["text"] = message["text"].strip()` followed by
`message["timestamp"] = asyncio.get_event_loop().time()`.  Only reachable for
dict messages (validation already succeeded). -/
def normalizeMsg (v : JVal) (stripped : String) (t : Int) : JVal :=
  match v with
  | JVal.jobj kvs =>
      JVal.jobj (setKey "timestamp" (JVal.jnum t) (setKey "text" (JVal.jstr stripped) kvs))
  | _ => v

/-- The server's global mutable state: `CONNECTIONS` and `CHAT_HISTORY`. -/
structure ServerState where
  connections : List Nat
  history : List JVal

/-- The history capacity, `MAX_HISTORY = 50` in the source. -/
def MAX_HISTORY : Nat := 50

/-- The history update inside `broadcast`: `CHAT_HISTORY.append(message)` then
`if len(CHAT_HISTORY) > MAX_HISTORY: CHAT_HISTORY = CHAT_HISTORY[1:]` (drop the
single oldest element). -/
def appendTrim (h : List JVal) (m : JVal) : List JVal :=
  let h1 := h ++ [m]
  if MAX_HISTORY < h1.length then h1.tail else h1

/-- The body of `unregister(websocket)`: remove the handle from `CONNECTIONS`
when present, do nothing otherwise. -/
def unregisterConns (c : Nat) (conns : List Nat) : List Nat :=
  if c ∈ conns then conns.erase c else conns

/-- State-level form of `unregister`. -/
def unregState (c : Nat) (st : ServerState) : ServerState :=
  { st with connections := unregisterConns c st.connections }

/-- Result of one `broadcast(message)` call: the new global state together with
the list of `(handle, payload)` deliveries whose `send` succeeded. -/
structure BroadcastOut where
  state : ServerState
  deliveries : List (Nat × JVal)

/-- The body of `broadcast(message)`: append-and-trim the history, send the
message concurrently to every handle in `CONNECTIONS` (collecting exceptions
with `asyncio.gather(..., return_exceptions=True)`), then unregister every
handle whose send raised.  `fails c = true` means handle `c`'s send raises
during this broadcast.  The `if CONNECTIONS:` guard in the source is the
identity on the empty set, so it needs no separate branch. -/
def broadcast (fails : Nat → Bool) (m : JVal) (st : ServerState) : BroadcastOut :=
  let hist := appendTrim st.history m
  let delivered := (st.connections.filter (fun c => !(fails c))).map (fun c => (c, m))
  let disconnected := st.connections.filter fails
  let conns := disconnected.foldl (fun cs c => unregisterConns c cs) st.connections
  { state := { connections := conns, history := hist }, deliveries := delivered }

/-- Result of the handler's loop body on one inbound frame. -/
structure StepResult where
  state : ServerState
  deliveries : List (Nat × JVal)
  broadcasted : Option JVal
  fatal : Bool

/-- One iteration of `async for raw_message in websocket`: parse (a `none`
frame raises `JSONDecodeError`, which the inner `except` catches and logs),
validate, and on success normalize and broadcast.  Any exception other than
`JSONDecodeError` raised by the validation expression escapes the inner
`try` and aborts the receive loop (`fatal := true`). -/
def processFrame (fails : Nat → Bool) (t : Int) (st : ServerState)
    (frame : Option JVal) : StepResult :=
  match frame with
  | none => { state := st, deliveries := [], broadcasted := none, fatal := false }
  | some v =>
    match checkMessage v with
    | Except.error PyExn.jsonDecodeError =>
        { state := st, deliveries := [], broadcasted := none, fatal := false }
    | Except.error _ =>
        { state := st, deliveries := [], broadcasted := none, fatal := true }
    | Except.ok none =>
        { state := st, deliveries := [], broadcasted := none, fatal := false }
    | Except.ok (some s) =>
        let msg := normalizeMsg v s t
        let out := broadcast fails msg st
        { state := out.state, deliveries := out.deliveries,
          broadcasted := some msg, fatal := false }

/-- The body of `register(websocket)`: add the handle to `CONNECTIONS`
(`set.add`, a no-op when already present), then send every history message to
it in order.  `replayFail = some k` means the `k`-th history send raises
`ConnectionClosed` (caught with `pass`, so the remaining messages are not
sent); `none` means every send succeeds.  Returns the new state and the list
of history messages actually sent to the client. -/
def registerClient (c : Nat) (replayFail : Option Nat) (st : ServerState) :
    ServerState × List JVal :=
  let conns := if c ∈ st.connections then st.connections else st.connections ++ [c]
  let sent :=
    match replayFail with
    | none => st.history
    | some k => st.history.take k
  ({ st with connections := conns }, sent)

/-- The receive loop of `handler`: process frames in order; stop early when an
uncaught exception escapes the loop body.  Returns the state at loop exit and
whether the exit was by an uncaught fault (`true`) or by the stream ending
(`false`).  Either way the surrounding `try` of `handler` catches the
exception, so control reaches `finally`. -/
def runLoop (fails : Nat → Nat → Bool) (time : Nat → Int) (i : Nat)
    (st : ServerState) : List (Option JVal) → ServerState × Bool
  | [] => (st, false)
  | f :: rest =>
    let r := processFrame (fails i) (time i) st f
    if r.fatal then (r.state, true)
    else runLoop fails time (i + 1) r.state rest

/-- The whole of `handler`: `register`, the receive loop, and — whatever way
the loop ends (end-of-stream, receive error, or an uncaught fault, all caught
by the `except` clauses) — the `finally: await unregister(websocket)`. -/
def runSession (c : Nat) (replayFail : Option Nat) (fails : Nat → Nat → Bool)
    (time : Nat → Int) (frames : List (Option JVal)) (st : ServerState) : ServerState :=
  let st0 := (registerClient c replayFail st).1
  let st1 := (runLoop fails time 0 st0 frames).1
  unregState c st1

/-- Outcome of `main()`'s startup check. -/
inductive StartupResult where
  | abortInvalid : StartupResult
  | serve : StartupResult
deriving DecidableEq

/-- The port check in `main()`: `if PORT <= 0 or PORT >= 65535: ... return`,
otherwise proceed to `websockets.serve`. -/
def mainStartup (port : Int) : StartupResult :=
  if port ≤ 0 ∨ 65535 ≤ port then StartupResult.abortInvalid else StartupResult.serve

/-- Folding a sequence of broadcasts over the state; each step carries its own
send-failure behaviour. -/
def runBroadcasts (steps : List (JVal × (Nat → Bool))) (st : ServerState) : ServerState :=
  steps.foldl (fun s p => (broadcast p.2 p.1 s).state) st

/-- The code's acceptance condition on a parsed message, as a predicate: a dict
with a `"user"` key (of any value) and a `"text"` key whose value is a string
that is non-empty after stripping. -/
def validMsg : JVal → Bool
  | JVal.jobj kvs =>
      kvs.any (fun kv => kv.1 == "user") &&
        (match lookupKey "text" kvs with
         | some (JVal.jstr s) => !(pyStripStr s == "")
         | _ => false)
  | _ => false

/-- Deliveries addressed to one handle, projected to their payloads. -/
def deliveriesTo (c : Nat) (ds : List (Nat × JVal)) : List JVal :=
  (ds.filter (fun d => d.1 == c)).map (fun d => d.2)

/-! ### Registry lemmas -/

theorem unregisterConns_eq_erase (c : Nat) (conns : List Nat) :
    unregisterConns c conns = conns.erase c := by
  unfold unregisterConns
  by_cases h : c ∈ conns
  · simp [h]
  · simp [h, List.erase_of_not_mem h]

theorem foldl_erase_eq_filter (ds : List Nat) (l : List Nat) (hl : l.Nodup) :
    List.foldl (fun cs c => cs.erase c) l ds
      = l.filter (fun a => !(ds.contains a)) := by
  induction ds generalizing l with
  | nil => simp
  | cons d ds ih =>
    simp only [List.foldl_cons]
    rw [ih (l.erase d) (List.Nodup.erase d hl), hl.erase_eq_filter d, List.filter_filter]
    refine List.filter_congr ?_
    intro x _
    by_cases hxd : x = d <;> simp [List.contains_cons, Bool.not_or, Bool.and_comm, hxd]

theorem contains_filter_of_mem {l : List Nat} {x : Nat} (p : Nat → Bool) (hx : x ∈ l) :
    (l.filter p).contains x = p x := by
  cases hpx : p x
  · have hnot : x ∉ l.filter p := by
      intro hmem
      rw [List.mem_filter] at hmem
      rw [hmem.2] at hpx
      exact Bool.false_ne_true hpx.symm
    cases hc : (l.filter p).contains x
    · rfl
    · exact absurd (List.elem_iff.mp hc) hnot
  · exact List.elem_iff.mpr (List.mem_filter.mpr ⟨hx, hpx⟩)

theorem broadcast_connections (fails : Nat → Bool) (m : JVal) (st : ServerState)
    (h : st.connections.Nodup) :
    (broadcast fails m st).state.connections
      = st.connections.filter (fun c => !(fails c)) := by
  show List.foldl (fun cs c => unregisterConns c cs) st.connections
      (st.connections.filter fails) = _
  have hfun : (fun (cs : List Nat) (c : Nat) => unregisterConns c cs)
      = fun cs c => cs.erase c := by
    funext cs c
    exact unregisterConns_eq_erase c cs
  rw [hfun, foldl_erase_eq_filter _ _ h]
  refine List.filter_congr ?_
  intro x hx
  rw [contains_filter_of_mem fails hx]

/-! ### History lemmas -/

theorem foldl_appendTrim (msgs : List JVal) :
    ∀ h : List JVal, h.length ≤ MAX_HISTORY →
      List.foldl appendTrim h msgs
        = (h ++ msgs).drop (h.length + msgs.length - MAX_HISTORY) := by
  induction msgs with
  | nil =>
    intro h hle
    simp only [List.foldl_nil, List.append_nil, List.length_nil, Nat.add_zero]
    have hz : h.length - MAX_HISTORY = 0 := by omega
    rw [hz, List.drop_zero]
  | cons m ms ih =>
    intro h hle
    simp only [List.foldl_cons]
    by_cases hlt : h.length < MAX_HISTORY
    · have h1 : appendTrim h m = h ++ [m] := by
        unfold appendTrim
        rw [if_neg]
        simp only [List.length_append, List.length_cons, List.length_nil]
        omega
      have hle1 : (h ++ [m]).length ≤ MAX_HISTORY := by
        simp only [List.length_append, List.length_cons, List.length_nil]
        omega
      rw [h1, ih (h ++ [m]) hle1, List.append_assoc, List.singleton_append]
      congr 1
      simp only [List.length_append, List.length_cons, List.length_nil]
      omega
    · have hlen : h.length = MAX_HISTORY := le_antisymm hle (not_lt.mp hlt)
      obtain ⟨a, h0, rfl⟩ : ∃ a h0, h = a :: h0 := by
        cases h with
        | nil => simp [MAX_HISTORY] at hlen
        | cons a t => exact ⟨a, t, rfl⟩
      have hlen0 : h0.length + 1 = MAX_HISTORY := by
        simpa using hlen
      have h1 : appendTrim (a :: h0) m = h0 ++ [m] := by
        unfold appendTrim
        rw [if_pos]
        · simp
        · simp only [List.cons_append, List.length_cons, List.length_append,
            List.length_nil]
          omega
      have hle1 : (h0 ++ [m]).length ≤ MAX_HISTORY := by
        simp only [List.length_cons] at hlen
        simp only [List.length_append, List.length_cons, List.length_nil]
        omega
      rw [h1, ih (h0 ++ [m]) hle1]
      have hamtL : (h0 ++ [m]).length + ms.length - MAX_HISTORY = ms.length := by
        simp only [List.length_cons] at hlen
        simp only [List.length_append, List.length_cons, List.length_nil]
        omega
      have hamtR : (a :: h0).length + (m :: ms).length - MAX_HISTORY = ms.length + 1 := by
        simp only [List.length_cons] at hlen ⊢
        omega
      rw [hamtL, hamtR, List.append_assoc, List.singleton_append,
        List.cons_append, List.drop_succ_cons]

theorem runBroadcasts_history (steps : List (JVal × (Nat → Bool))) (st : ServerState) :
    (runBroadcasts steps st).history
      = List.foldl appendTrim st.history (steps.map Prod.fst) := by
  induction steps generalizing st with
  | nil => rfl
  | cons p ps ih =>
    simp only [runBroadcasts, List.foldl_cons, List.map_cons] at *
    exact ih { connections := _, history := appendTrim st.history p.1 }

/-- C1: starting from an empty history, a sequence of `N` accepted broadcasts
(each with arbitrary registered recipients and arbitrary per-recipient send
failures, including the empty registry) leaves a history of length
`min N MAX_HISTORY` equal to the most recent `min N MAX_HISTORY` broadcast
messages in their original broadcast order. -/
theorem C1_history_bound (steps : List (JVal × (Nat → Bool))) (conns : List Nat) :
    (runBroadcasts steps { connections := conns, history := [] }).history
        = (steps.map Prod.fst).drop (steps.length - MAX_HISTORY)
      ∧ (runBroadcasts steps { connections := conns, history := [] }).history.length
        = min steps.length MAX_HISTORY := by
  have h := runBroadcasts_history steps { connections := conns, history := [] }
  rw [foldl_appendTrim _ [] (by simp [MAX_HISTORY])] at h
  simp only [List.nil_append, List.length_nil, Nat.zero_add, List.length_map] at h
  refine ⟨h, ?_⟩
  rw [h, List.length_drop, List.length_map]
  omega

/-- C4: a broadcast over a duplicate-free registry delivers the message to
exactly the recipients whose send succeeds, and afterwards exactly the failing
handles have been removed from the registry: the surviving membership is the
original one filtered to the non-failing handles, in order. -/
theorem C4_fanout_partial_failure (fails : Nat → Bool) (m : JVal) (st : ServerState)
    (h : st.connections.Nodup) :
    (broadcast fails m st).deliveries
        = (st.connections.filter (fun c => !(fails c))).map (fun c => (c, m))
      ∧ (broadcast fails m st).state.connections
        = st.connections.filter (fun c => !(fails c))
      ∧ ∀ c ∈ st.connections,
          (fails c = false →
            (c, m) ∈ (broadcast fails m st).deliveries
              ∧ c ∈ (broadcast fails m st).state.connections)
          ∧ (fails c = true → c ∉ (broadcast fails m st).state.connections) := by
  have hconn := broadcast_connections fails m st h
  refine ⟨rfl, hconn, ?_⟩
  intro c hc
  constructor
  · intro hok
    constructor
    · show (c, m) ∈ (st.connections.filter (fun c => !(fails c))).map (fun c => (c, m))
      exact List.mem_map.mpr ⟨c, List.mem_filter.mpr ⟨hc, by simp [hok]⟩, rfl⟩
    · rw [hconn]
      exact List.mem_filter.mpr ⟨hc, by simp [hok]⟩
  · intro hbad hmem
    rw [hconn] at hmem
    have := (List.mem_filter.mp hmem).2
    rw [hbad] at this
    exact Bool.false_ne_true this

/-- C4 witness: three registered handles of which handle 1 fails; the message
is delivered to handles 0 and 2 and the registry afterwards is exactly
`[0, 2]`. -/
theorem C4_fanout_partial_failure_witness :
    (broadcast (fun c => c == 1) (JVal.jstr "m") { connections := [0, 1, 2], history := [] }).deliveries
        = [(0, JVal.jstr "m"), (2, JVal.jstr "m")]
      ∧ (broadcast (fun c => c == 1) (JVal.jstr "m") { connections := [0, 1, 2], history := [] }).state.connections
        = [0, 2] := by
  have h := C4_fanout_partial_failure (fun c => c == 1) (JVal.jstr "m")
    { connections := [0, 1, 2], history := [] } (by decide)
  exact ⟨h.1.trans rfl, h.2.1.trans rfl⟩

/-- C8: unregistering an absent handle leaves the registry state unchanged
(and raises nothing), and unregistering the same handle twice leaves the
state exactly as unregistering it once (the registry is a set, hence
duplicate-free). -/
theorem C8_unregister_idempotent (st : ServerState) (c : Nat) :
    (c ∉ st.connections → unregState c st = st)
      ∧ (st.connections.Nodup →
          unregState c (unregState c st) = unregState c st) := by
  constructor
  · intro h
    show { st with connections := unregisterConns c st.connections } = st
    rw [unregisterConns, if_neg h]
  · intro h
    have hnotin : c ∉ unregisterConns c st.connections := by
      rw [unregisterConns_eq_erase]
      intro hmem
      exact absurd rfl ((List.Nodup.mem_erase_iff h).mp hmem).1
    have h2 : unregisterConns c (unregisterConns c st.connections)
        = unregisterConns c st.connections := by
      rw [unregisterConns, if_neg hnotin]
    simp only [unregState]
    rw [h2]

/-- C8 witness: unregistering the absent handle 3 from registry `[1, 2]` is a
no-op, and unregistering handle 1 twice equals unregistering it once. -/
theorem C8_unregister_idempotent_witness :
    unregState 3 { connections := [1, 2], history := [] }
        = { connections := [1, 2], history := [] }
      ∧ unregState 1 (unregState 1 { connections := [1, 2], history := [] })
        = unregState 1 { connections := [1, 2], history := [] } :=
  ⟨(C8_unregister_idempotent { connections := [1, 2], history := [] } 3).1 (by decide),
   (C8_unregister_idempotent { connections := [1, 2], history := [] } 1).2 (by decide)⟩

/-! ### Validation lemmas -/

theorem lookupKey_isSome_eq_any (k : String) (kvs : List (String × JVal)) :
    (lookupKey k kvs).isSome = kvs.any (fun kv => kv.1 == k) := by
  induction kvs with
  | nil => rfl
  | cons kv rest ih =>
    by_cases hk : kv.1 == k
    · simp [lookupKey, hk]
    · simp only [lookupKey, List.any_cons]
      rw [if_neg hk, ih]
      simp only [hk, Bool.false_or]

/-- Full characterization of the validation expression on a dict message. -/
theorem checkMessage_jobj (kvs : List (String × JVal)) :
    checkMessage (JVal.jobj kvs)
      = if kvs.any (fun kv => kv.1 == "user") then
          (match lookupKey "text" kvs with
           | none => Except.ok none
           | some (JVal.jstr s) =>
               if pyStripStr s == "" then Except.ok none
               else Except.ok (some (pyStripStr s))
           | some _ => Except.error PyExn.attributeError)
        else Except.ok none := by
  unfold checkMessage
  cases hu : kvs.any (fun kv => kv.1 == "user") with
  | false => simp [pyContains, hu]
  | true =>
    simp only [pyContains, hu, if_pos]
    have htext := lookupKey_isSome_eq_any "text" kvs
    cases hlook : lookupKey "text" kvs with
    | none =>
      rw [hlook] at htext
      simp only [Option.isSome_none] at htext
      simp [← htext]
    | some tv =>
      rw [hlook] at htext
      simp only [Option.isSome_some] at htext
      rw [← htext]
      simp only [pyGetItem, hlook]
      cases tv <;> simp [pyStrip]

theorem checkMessage_jstr (s : String) :
    checkMessage (JVal.jstr s)
      = if listHasInfix "user".toList s.toList then
          (if listHasInfix "text".toList s.toList then Except.error PyExn.typeError
           else Except.ok none)
        else Except.ok none := by
  simp only [checkMessage, pyContains]
  cases listHasInfix "user".toList s.toList <;>
    cases listHasInfix "text".toList s.toList <;> rfl

theorem checkMessage_jarr (xs : List JVal) :
    checkMessage (JVal.jarr xs)
      = if xs.any (fun v => match v with | JVal.jstr u => u == "user" | _ => false) then
          (if xs.any (fun v => match v with | JVal.jstr u => u == "text" | _ => false) then
            Except.error PyExn.typeError
           else Except.ok none)
        else Except.ok none := by
  simp only [checkMessage, pyContains]
  cases xs.any (fun v => match v with | JVal.jstr u => u == "user" | _ => false) <;>
    cases xs.any (fun v => match v with | JVal.jstr u => u == "text" | _ => false) <;> rfl

/-- A message is accepted by the validation expression (evaluates to a
non-exceptional truthy value) exactly when `validMsg` holds. -/
theorem validMsg_iff_some (v : JVal) :
    validMsg v = true ↔ ∃ s, checkMessage v = Except.ok (some s) := by
  cases v with
  | jnull => simp [validMsg, show checkMessage JVal.jnull = Except.error PyExn.typeError from rfl]
  | jbool b => simp [validMsg, show ∀ b, checkMessage (JVal.jbool b) = Except.error PyExn.typeError from fun _ => rfl]
  | jnum n => simp [validMsg, show ∀ n, checkMessage (JVal.jnum n) = Except.error PyExn.typeError from fun _ => rfl]
  | jstr s =>
    rw [checkMessage_jstr]
    cases listHasInfix "user".toList s.toList <;>
      cases listHasInfix "text".toList s.toList <;> simp [validMsg]
  | jarr xs =>
    rw [checkMessage_jarr]
    cases xs.any (fun v => match v with | JVal.jstr u => u == "user" | _ => false) <;>
      cases xs.any (fun v => match v with | JVal.jstr u => u == "text" | _ => false) <;>
        simp [validMsg]
  | jobj kvs =>
    rw [checkMessage_jobj]
    cases hu : kvs.any (fun kv => kv.1 == "user") with
    | false => simp [validMsg, hu]
    | true =>
      simp only [if_true]
      cases hlook : lookupKey "text" kvs with
      | none => simp [validMsg, hu, hlook]
      | some tv =>
        cases tv with
        | jstr s =>
          cases hs : (pyStripStr s == "") with
          | true => simp [validMsg, hu, hlook, hs]
          | false => simp [validMsg, hu, hlook, hs]
        | jnull => simp [validMsg, hu, hlook]
        | jbool b => simp [validMsg, hu, hlook]
        | jnum n => simp [validMsg, hu, hlook]
        | jarr ys => simp [validMsg, hu, hlook]
        | jobj kvs2 => simp [validMsg, hu, hlook]

/-- When the validation expression does not evaluate to an accepted message
(it is falsy or raises), the loop body broadcasts nothing and leaves the
state untouched. -/
theorem processFrame_no_broadcast (fails : Nat → Bool) (t : Int) (st : ServerState)
    (v : JVal) (h : ∀ s, checkMessage v ≠ Except.ok (some s)) :
    (processFrame fails t st (some v)).broadcasted = none
      ∧ (processFrame fails t st (some v)).state = st
      ∧ (processFrame fails t st (some v)).deliveries = [] := by
  simp only [processFrame]
  cases hc : checkMessage v with
  | error e => cases e <;> simp [hc]
  | ok o =>
    cases o with
    | none => simp [hc]
    | some s => exact absurd hc (h s)

/-- When the validation expression accepts, the loop body normalizes the
message and broadcasts it. -/
theorem processFrame_broadcast_eq (fails : Nat → Bool) (t : Int) (st : ServerState)
    (v : JVal) (s : String) (h : checkMessage v = Except.ok (some s)) :
    processFrame fails t st (some v)
      = { state := (broadcast fails (normalizeMsg v s t) st).state,
          deliveries := (broadcast fails (normalizeMsg v s t) st).deliveries,
          broadcasted := some (normalizeMsg v s t), fatal := false } := by
  simp only [processFrame]
  rw [h]

/-- C2 (amended): a parsed inbound message is broadcast exactly when it is a
dict containing a `"user"` key (of any value, empty string included) and a
`"text"` key whose value is a string that is non-empty after stripping; a
message failing this condition causes no broadcast, no delivery, and leaves
the whole server state (history included) unchanged. -/
theorem C2_validation (v : JVal) (st : ServerState) (t : Int) (fails : Nat → Bool) :
    ((processFrame fails t st (some v)).broadcasted.isSome = validMsg v)
      ∧ (validMsg v = false →
          (processFrame fails t st (some v)).state = st
            ∧ (processFrame fails t st (some v)).deliveries = []) := by
  cases hvm : validMsg v with
  | false =>
    have hns : ∀ s, checkMessage v ≠ Except.ok (some s) := by
      intro s hs
      have := (validMsg_iff_some v).mpr ⟨s, hs⟩
      rw [hvm] at this
      exact Bool.false_ne_true this
    obtain ⟨hb, hst, hd⟩ := processFrame_no_broadcast fails t st v hns
    refine ⟨?_, fun _ => ⟨hst, hd⟩⟩
    rw [hb]
    rfl
  | true =>
    obtain ⟨s, hs⟩ := (validMsg_iff_some v).mp hvm
    rw [processFrame_broadcast_eq fails t st v s hs]
    exact ⟨rfl, fun hfalse => absurd hfalse (by simp)⟩

/-- C2 witness: the spec's own example `{"user":"a","text":"   "}` (text blank
after strip) is not broadcast and leaves state and deliveries untouched. -/
theorem C2_validation_witness :
    (processFrame (fun _ => false) 0 { connections := [7], history := [JVal.jstr "old"] }
        (some (JVal.jobj [("user", JVal.jstr "a"), ("text", JVal.jstr "   ")]))).broadcasted.isSome
      = false
      ∧ (processFrame (fun _ => false) 0 { connections := [7], history := [JVal.jstr "old"] }
          (some (JVal.jobj [("user", JVal.jstr "a"), ("text", JVal.jstr "   ")]))).state
        = { connections := [7], history := [JVal.jstr "old"] }
      ∧ (processFrame (fun _ => false) 0 { connections := [7], history := [JVal.jstr "old"] }
          (some (JVal.jobj [("user", JVal.jstr "a"), ("text", JVal.jstr "   ")]))).deliveries
        = [] := by
  have h := C2_validation (JVal.jobj [("user", JVal.jstr "a"), ("text", JVal.jstr "   ")])
    { connections := [7], history := [JVal.jstr "old"] } 0 (fun _ => false)
  exact ⟨h.1.trans rfl, (h.2 rfl).1, (h.2 rfl).2⟩

/-- C2 counterexample: the message `{"user":"","text":"hi"}` has an EMPTY
`user` field, yet the code broadcasts it and appends it to history — the code
only tests key presence, never that `user` is non-empty. -/
theorem C2_counterexample :
    lookupKey "user" [("user", JVal.jstr ""), ("text", JVal.jstr "hi")] = some (JVal.jstr "")
      ∧ (processFrame (fun _ => false) 0 { connections := [], history := [] }
          (some (JVal.jobj [("user", JVal.jstr ""), ("text", JVal.jstr "hi")]))).broadcasted.isSome
        = true
      ∧ (processFrame (fun _ => false) 0 { connections := [], history := [] }
          (some (JVal.jobj [("user", JVal.jstr ""), ("text", JVal.jstr "hi")]))).state.history.length
        = 1 :=
  ⟨rfl, rfl, rfl⟩

/-- C3: the frame `"user text"` — a JSON string, hence parseable but missing
the `user` field — makes the validation expression raise `TypeError`
(`message["text"]` on a `str`), which the inner `except json.JSONDecodeError`
does not catch: the receive loop aborts instead of continuing, and a valid
frame queued right after it is never processed (history stays empty). -/
theorem C3_malformed_frame_kills_session :
    (processFrame (fun _ => false) 0 { connections := [], history := [] }
        (some (JVal.jstr "user text"))).fatal = true
      ∧ (runLoop (fun _ _ => false) (fun _ => 0) 0 { connections := [], history := [] }
          [some (JVal.jstr "user text"),
           some (JVal.jobj [("user", JVal.jstr "a"), ("text", JVal.jstr "hi")])]).2
        = true
      ∧ (runLoop (fun _ _ => false) (fun _ => 0) 0 { connections := [], history := [] }
          [some (JVal.jstr "user text"),
           some (JVal.jobj [("user", JVal.jstr "a"), ("text", JVal.jstr "hi")])]).1.history
        = [] :=
  ⟨rfl, rfl, rfl⟩

/-! ### Dict-assignment lemmas -/

theorem lookupKey_map_replace (k : String) (v : JVal) (l : List (String × JVal))
    (h : l.any (fun kv => kv.1 == k) = true) :
    lookupKey k (l.map (fun kv => if kv.1 == k then (kv.1, v) else kv)) = some v := by
  induction l with
  | nil => simp at h
  | cons kv rest ih =>
    by_cases hk : kv.1 = k
    · simp [lookupKey, hk]
    · have hk2 : (kv.1 == k) = false := by simp [hk]
      have h2 : rest.any (fun kv => kv.1 == k) = true := by
        simp only [List.any_cons, hk2, Bool.false_or] at h
        exact h
      simp only [List.map_cons, hk2, if_false, lookupKey, Bool.false_eq_true]
      exact ih h2

theorem lookupKey_append_single (k : String) (v : JVal) (l : List (String × JVal))
    (h : l.any (fun kv => kv.1 == k) = false) :
    lookupKey k (l ++ [(k, v)]) = some v := by
  induction l with
  | nil => simp [lookupKey]
  | cons kv rest ih =>
    simp only [List.any_cons, Bool.or_eq_false_iff] at h
    simp only [List.cons_append, lookupKey]
    rw [if_neg (by simp [h.1])]
    exact ih h.2

theorem lookupKey_map_replace_ne (k k2 : String) (v : JVal) (l : List (String × JVal))
    (hne : k ≠ k2) :
    lookupKey k (l.map (fun kv => if kv.1 == k2 then (kv.1, v) else kv))
      = lookupKey k l := by
  induction l with
  | nil => rfl
  | cons kv rest ih =>
    by_cases hk : kv.1 = k
    · have hkk2 : (kv.1 == k2) = false := by
        simp only [beq_eq_false_iff_ne, ne_eq]
        rw [hk]
        exact hne
      simp only [List.map_cons, hkk2, Bool.false_eq_true, if_false, lookupKey]
      rw [if_pos (by simp [hk]), if_pos (by simp [hk])]
    · by_cases hkk2 : kv.1 = k2
      · simp only [List.map_cons, hkk2, beq_self_eq_true, if_true, lookupKey]
        rw [if_neg (fun hbe => hne (beq_iff_eq.mp hbe).symm),
          if_neg (fun hbe => hne (beq_iff_eq.mp hbe).symm)]
        exact ih
      · have hkk2f : (kv.1 == k2) = false := by simp [hkk2]
        simp only [List.map_cons, hkk2f, if_false, lookupKey, Bool.false_eq_true]
        rw [if_neg (by simp [hk]), if_neg (by simp [hk])]
        exact ih

theorem lookupKey_append_ne (k k2 : String) (v : JVal) (l : List (String × JVal))
    (hne : k ≠ k2) :
    lookupKey k (l ++ [(k2, v)]) = lookupKey k l := by
  induction l with
  | nil =>
    simp only [List.nil_append, lookupKey]
    rw [if_neg (by simp only [beq_iff_eq]; exact fun he => hne he.symm)]
  | cons kv rest ih =>
    simp only [List.cons_append, lookupKey]
    by_cases hk : kv.1 = k
    · simp [hk]
    · rw [if_neg (by simp [hk]), if_neg (by simp [hk])]
      exact ih

theorem lookupKey_setKey_self (k : String) (v : JVal) (l : List (String × JVal)) :
    lookupKey k (setKey k v l) = some v := by
  unfold setKey
  split
  · next h => exact lookupKey_map_replace k v l h
  · next h =>
    have hf : l.any (fun kv => kv.1 == k) = false := by
      cases hb : l.any (fun kv => kv.1 == k) with
      | false => rfl
      | true => exact absurd hb h
    exact lookupKey_append_single k v l hf

theorem lookupKey_setKey_ne (k k2 : String) (v : JVal) (l : List (String × JVal))
    (hne : k ≠ k2) :
    lookupKey k (setKey k2 v l) = lookupKey k l := by
  unfold setKey
  split
  · exact lookupKey_map_replace_ne k k2 v l hne
  · exact lookupKey_append_ne k k2 v l hne

theorem getLast?_appendTrim (h : List JVal) (m : JVal) :
    (appendTrim h m).getLast? = some m := by
  simp only [appendTrim]
  split
  · next hlen =>
    cases h with
    | nil => simp [MAX_HISTORY] at hlen
    | cons a t =>
      simp only [List.cons_append, List.tail_cons]
      exact List.getLast?_concat t
  · next hlen => exact List.getLast?_concat h

/-- C6: an accepted message is broadcast with its `text` field overwritten by
the stripped inbound text, its `timestamp` field overwritten by the
server-assigned current time `t` (any client-supplied timestamp included),
and that exact message is the one appended to the history. -/
theorem C6_normalization (kvs : List (String × JVal)) (st : ServerState) (t : Int)
    (fails : Nat → Bool) (s : String)
    (huser : kvs.any (fun kv => kv.1 == "user") = true)
    (htext : lookupKey "text" kvs = some (JVal.jstr s))
    (hne : (pyStripStr s == "") = false) :
    (processFrame fails t st (some (JVal.jobj kvs))).broadcasted
        = some (JVal.jobj (setKey "timestamp" (JVal.jnum t)
            (setKey "text" (JVal.jstr (pyStripStr s)) kvs)))
      ∧ lookupKey "text" (setKey "timestamp" (JVal.jnum t)
            (setKey "text" (JVal.jstr (pyStripStr s)) kvs))
          = some (JVal.jstr (pyStripStr s))
      ∧ lookupKey "timestamp" (setKey "timestamp" (JVal.jnum t)
            (setKey "text" (JVal.jstr (pyStripStr s)) kvs))
          = some (JVal.jnum t)
      ∧ (processFrame fails t st (some (JVal.jobj kvs))).state.history.getLast?
          = some (JVal.jobj (setKey "timestamp" (JVal.jnum t)
              (setKey "text" (JVal.jstr (pyStripStr s)) kvs))) := by
  have hc : checkMessage (JVal.jobj kvs) = Except.ok (some (pyStripStr s)) := by
    rw [checkMessage_jobj, if_pos huser]
    simp [htext, hne]
  have hp := processFrame_broadcast_eq fails t st (JVal.jobj kvs) (pyStripStr s) hc
  refine ⟨?_, ?_, ?_, ?_⟩
  · rw [hp]
    rfl
  · rw [lookupKey_setKey_ne "text" "timestamp" _ _ (by decide), lookupKey_setKey_self]
  · rw [lookupKey_setKey_self]
  · rw [hp]
    exact getLast?_appendTrim st.history _

/-- C6 witness: the message `{"user":"a","text":"  hi ","timestamp":999}` sent
at server time 5 is broadcast as `{"user":"a","text":"hi","timestamp":5}` —
text stripped, client timestamp 999 overwritten. -/
theorem C6_normalization_witness :
    (processFrame (fun _ => false) 5 { connections := [], history := [] }
        (some (JVal.jobj [("user", JVal.jstr "a"), ("text", JVal.jstr "  hi "),
          ("timestamp", JVal.jnum 999)]))).broadcasted
      = some (JVal.jobj [("user", JVal.jstr "a"), ("text", JVal.jstr "hi"),
          ("timestamp", JVal.jnum 5)])
      ∧ lookupKey "text" (setKey "timestamp" (JVal.jnum 5)
            (setKey "text" (JVal.jstr (pyStripStr "  hi "))
              [("user", JVal.jstr "a"), ("text", JVal.jstr "  hi "),
               ("timestamp", JVal.jnum 999)]))
          = some (JVal.jstr "hi")
      ∧ lookupKey "timestamp" (setKey "timestamp" (JVal.jnum 5)
            (setKey "text" (JVal.jstr (pyStripStr "  hi "))
              [("user", JVal.jstr "a"), ("text", JVal.jstr "  hi "),
               ("timestamp", JVal.jnum 999)]))
          = some (JVal.jnum 5) := by
  have h := C6_normalization
    [("user", JVal.jstr "a"), ("text", JVal.jstr "  hi "), ("timestamp", JVal.jnum 999)]
    { connections := [], history := [] } 5 (fun _ => false) "  hi " rfl rfl rfl
  exact ⟨h.1.trans rfl, h.2.1.trans rfl, h.2.2.1⟩

/-- C10: for an accepted message, every field other than `text` and
`timestamp` (the `user` field and any extra client-supplied fields) is looked
up unchanged in the broadcast payload, and that payload is both the history
entry appended and the one delivered to every surviving recipient. -/
theorem C10_field_passthrough (kvs : List (String × JVal)) (st : ServerState)
    (t : Int) (fails : Nat → Bool) (s : String) (k : String)
    (huser : kvs.any (fun kv => kv.1 == "user") = true)
    (htext : lookupKey "text" kvs = some (JVal.jstr s))
    (hne : (pyStripStr s == "") = false)
    (hk1 : k ≠ "text") (hk2 : k ≠ "timestamp") :
    lookupKey k (setKey "timestamp" (JVal.jnum t)
        (setKey "text" (JVal.jstr (pyStripStr s)) kvs))
      = lookupKey k kvs
      ∧ (processFrame fails t st (some (JVal.jobj kvs))).broadcasted
        = some (JVal.jobj (setKey "timestamp" (JVal.jnum t)
            (setKey "text" (JVal.jstr (pyStripStr s)) kvs)))
      ∧ (processFrame fails t st (some (JVal.jobj kvs))).deliveries
        = (st.connections.filter (fun c => !(fails c))).map
            (fun c => (c, JVal.jobj (setKey "timestamp" (JVal.jnum t)
              (setKey "text" (JVal.jstr (pyStripStr s)) kvs))))
      ∧ (processFrame fails t st (some (JVal.jobj kvs))).state.history.getLast?
        = some (JVal.jobj (setKey "timestamp" (JVal.jnum t)
            (setKey "text" (JVal.jstr (pyStripStr s)) kvs))) := by
  have hc : checkMessage (JVal.jobj kvs) = Except.ok (some (pyStripStr s)) := by
    rw [checkMessage_jobj, if_pos huser]
    simp [htext, hne]
  have hp := processFrame_broadcast_eq fails t st (JVal.jobj kvs) (pyStripStr s) hc
  refine ⟨?_, ?_, ?_, ?_⟩
  · rw [lookupKey_setKey_ne k "timestamp" _ _ hk2, lookupKey_setKey_ne k "text" _ _ hk1]
  · rw [hp]
    rfl
  · rw [hp]
    rfl
  · rw [hp]
    exact getLast?_appendTrim st.history _

/-- C10 witness: the extra field `"extra": true` and the `user` field of
`{"user":"bob","text":" yo ","extra":true}` survive unchanged into the
broadcast payload, which is delivered verbatim to the registered handle 4. -/
theorem C10_field_passthrough_witness :
    lookupKey "extra" (setKey "timestamp" (JVal.jnum 9)
        (setKey "text" (JVal.jstr (pyStripStr " yo "))
          [("user", JVal.jstr "bob"), ("text", JVal.jstr " yo "),
           ("extra", JVal.jbool true)]))
      = some (JVal.jbool true)
      ∧ (processFrame (fun _ => false) 9 { connections := [4], history := [] }
          (some (JVal.jobj [("user", JVal.jstr "bob"), ("text", JVal.jstr " yo "),
            ("extra", JVal.jbool true)]))).deliveries
        = [(4, JVal.jobj [("user", JVal.jstr "bob"), ("text", JVal.jstr "yo"),
            ("extra", JVal.jbool true), ("timestamp", JVal.jnum 9)])] := by
  have h := C10_field_passthrough
    [("user", JVal.jstr "bob"), ("text", JVal.jstr " yo "), ("extra", JVal.jbool true)]
    { connections := [4], history := [] } 9 (fun _ => false) " yo " "extra"
    rfl rfl rfl (by decide) (by decide)
  exact ⟨h.1.trans rfl, h.2.2.1.trans rfl⟩

/-! ### Replay and session lemmas -/

theorem filter_beq_self (l : List Nat) (c : Nat) (h : l.Nodup) (hc : c ∈ l) :
    l.filter (fun a => a == c) = [c] := by
  induction l with
  | nil => cases hc
  | cons a rest ih =>
    rcases List.mem_cons.mp hc with rfl | hmem
    · have hrest : rest.filter (fun x => x == c) = [] := by
        rw [List.filter_eq_nil_iff]
        intro x hx hbe
        exact (List.nodup_cons.mp h).1 (beq_iff_eq.mp hbe ▸ hx)
      simp [List.filter_cons, hrest]
    · have hne : a ≠ c := by
        intro he
        exact (List.nodup_cons.mp h).1 (he ▸ hmem)
      rw [List.filter_cons, if_neg (by simp [hne])]
      exact ih (List.nodup_cons.mp h).2 hmem

theorem deliveriesTo_map_pair (c : Nat) (m : JVal) (l : List Nat) :
    deliveriesTo c (l.map (fun x => (x, m)))
      = (l.filter (fun x => x == c)).map (fun _ => m) := by
  induction l with
  | nil => rfl
  | cons a rest ih =>
    by_cases ha : a = c
    · subst ha
      simp only [deliveriesTo] at ih ⊢
      simp [List.filter_cons, ih]
    · simp only [deliveriesTo] at ih ⊢
      simp [List.filter_cons, ha, ih]

theorem registerClient_mem (c : Nat) (rf : Option Nat) (st : ServerState) :
    c ∈ (registerClient c rf st).1.connections := by
  simp only [registerClient]
  by_cases h : c ∈ st.connections
  · simp [h]
  · simp [h]

theorem registerClient_nodup (c : Nat) (rf : Option Nat) (st : ServerState)
    (h : st.connections.Nodup) :
    (registerClient c rf st).1.connections.Nodup := by
  simp only [registerClient]
  by_cases hc : c ∈ st.connections
  · simpa [hc] using h
  · simp only [hc, if_false]
    rw [List.nodup_append]
    refine ⟨h, List.nodup_singleton c, ?_⟩
    intro a ha hb
    rw [List.mem_singleton] at hb
    exact hc (hb ▸ ha)

/-- C5: a client joining with a duplicate-free registry is registered and then
sent exactly the current history, in order and nothing else; a message
broadcast after the join is delivered to it exactly once, after the replay. -/
theorem C5_replay_on_join (st : ServerState) (c : Nat) (m : JVal) (fails : Nat → Bool)
    (hnd : st.connections.Nodup) (hok : fails c = false) :
    (registerClient c none st).2 = st.history
      ∧ c ∈ (registerClient c none st).1.connections
      ∧ deliveriesTo c (broadcast fails m (registerClient c none st).1).deliveries
        = [m] := by
  have hmem := registerClient_mem c none st
  have hnd1 := registerClient_nodup c none st hnd
  refine ⟨rfl, hmem, ?_⟩
  show deliveriesTo c
    (((registerClient c none st).1.connections.filter (fun x => !(fails x))).map
      (fun x => (x, m))) = [m]
  rw [deliveriesTo_map_pair]
  have hsingle : ((registerClient c none st).1.connections.filter
      (fun x => !(fails x))).filter (fun x => x == c) = [c] := by
    refine filter_beq_self _ c (List.Nodup.filter _ hnd1) ?_
    exact List.mem_filter.mpr ⟨hmem, by simp [hok]⟩
  rw [hsingle]
  rfl

/-- C5 witness: a client joining with history `[h1, h2]` is sent exactly
`[h1, h2]`, and a following broadcast delivers it exactly `[new]`. -/
theorem C5_replay_on_join_witness :
    (registerClient 3 none { connections := [], history := [JVal.jstr "h1", JVal.jstr "h2"] }).2
      = [JVal.jstr "h1", JVal.jstr "h2"]
      ∧ deliveriesTo 3 (broadcast (fun _ => false) (JVal.jstr "new")
          (registerClient 3 none
            { connections := [], history := [JVal.jstr "h1", JVal.jstr "h2"] }).1).deliveries
        = [JVal.jstr "new"] := by
  have h := C5_replay_on_join
    { connections := [], history := [JVal.jstr "h1", JVal.jstr "h2"] }
    3 (JVal.jstr "new") (fun _ => false) (by decide) rfl
  exact ⟨h.1, h.2.2⟩

theorem unregFun_eq_erase :
    (fun (cs : List Nat) (c : Nat) => unregisterConns c cs)
      = fun (cs : List Nat) (c : Nat) => cs.erase c := by
  funext cs c
  exact unregisterConns_eq_erase c cs

theorem nodup_foldl_erase (ds : List Nat) (l : List Nat) (h : l.Nodup) :
    (List.foldl (fun (cs : List Nat) c => cs.erase c) l ds).Nodup := by
  induction ds generalizing l with
  | nil => exact h
  | cons d ds ih =>
    simp only [List.foldl_cons]
    exact ih _ (List.Nodup.erase d h)

theorem broadcast_nodup (fails : Nat → Bool) (m : JVal) (st : ServerState)
    (h : st.connections.Nodup) :
    (broadcast fails m st).state.connections.Nodup := by
  show (List.foldl (fun cs c => unregisterConns c cs) st.connections
    (st.connections.filter fails)).Nodup
  rw [unregFun_eq_erase]
  exact nodup_foldl_erase _ _ h

theorem processFrame_nodup (fails : Nat → Bool) (t : Int) (st : ServerState)
    (f : Option JVal) (h : st.connections.Nodup) :
    (processFrame fails t st f).state.connections.Nodup := by
  cases f with
  | none => exact h
  | some v =>
    simp only [processFrame]
    cases hc : checkMessage v with
    | error e => cases e <;> simpa [hc] using h
    | ok o =>
      cases o with
      | none => simpa [hc] using h
      | some s =>
        simp only [hc]
        exact broadcast_nodup fails (normalizeMsg v s t) st h

theorem runLoop_nodup (fails : Nat → Nat → Bool) (time : Nat → Int)
    (frames : List (Option JVal)) :
    ∀ (i : Nat) (st : ServerState), st.connections.Nodup →
      (runLoop fails time i st frames).1.connections.Nodup := by
  induction frames with
  | nil => intro i st h; exact h
  | cons f rest ih =>
    intro i st h
    simp only [runLoop]
    by_cases hr : (processFrame (fails i) (time i) st f).fatal = true
    · simp only [hr, if_true]
      exact processFrame_nodup (fails i) (time i) st f h
    · simp only [hr, if_false]
      exact ih (i + 1) _ (processFrame_nodup (fails i) (time i) st f h)

/-- C7: whatever frames a session receives and however its receive loop ends —
the stream running out (end-of-stream or receive error) or an uncaught fault
inside the loop body — the `finally` clause unregisters the session's own
handle, so it is absent from the registry afterwards. -/
theorem C7_session_unregisters (c : Nat) (replayFail : Option Nat)
    (fails : Nat → Nat → Bool) (time : Nat → Int) (frames : List (Option JVal))
    (st : ServerState) (h : st.connections.Nodup) :
    c ∉ (runSession c replayFail fails time frames st).connections := by
  have h0 := registerClient_nodup c replayFail st h
  have h1 := runLoop_nodup fails time frames 0 (registerClient c replayFail st).1 h0
  show c ∉ unregisterConns c
    (runLoop fails time 0 (registerClient c replayFail st).1 frames).1.connections
  rw [unregisterConns_eq_erase]
  intro hmem
  exact absurd rfl ((List.Nodup.mem_erase_iff h1).mp hmem).1

/-- C7 witness: a session for handle 4 that sees one malformed frame (which
aborts its loop with an uncaught fault) still ends with 4 not registered. -/
theorem C7_session_unregisters_witness :
    4 ∉ (runSession 4 none (fun _ _ => false) (fun _ => 0)
        [some (JVal.jstr "user text")]
        { connections := [9], history := [] }).connections :=
  C7_session_unregisters 4 none (fun _ _ => false) (fun _ => 0)
    [some (JVal.jstr "user text")] { connections := [9], history := [] } (by decide)

/-- C9 counterexample: 65535 is a legal TCP port (1 through 65535), but the
code's check `PORT <= 0 or PORT >= 65535` rejects it, so "startup proceeds iff
the port is within 1..65535" is false at port 65535. -/
theorem C9_counterexample :
    ¬ ((mainStartup 65535 = StartupResult.serve)
        ↔ (1 ≤ (65535 : Int) ∧ (65535 : Int) ≤ 65535)) := by
  decide

/-- C9 (amended): startup proceeds to serve exactly when the configured port
is strictly between 0 and 65535 (so 1 through 65534; the boundary value 65535
is rejected); every other value aborts startup with a reported error. -/
theorem C9_port_validation (port : Int) :
    mainStartup port = StartupResult.serve ↔ (0 < port ∧ port < 65535) := by
  unfold mainStartup
  split
  · next h =>
    constructor
    · intro he
      exact absurd he (by simp)
    · intro hp
      rcases h with h | h
      · exact absurd hp.1 (by omega)
      · exact absurd hp.2 (by omega)
  · next h =>
    push_neg at h
    exact ⟨fun _ => ⟨h.1, h.2⟩, fun _ => rfl⟩

/-- C9 witness: the default port 8765 is accepted and startup serves. -/
theorem C9_port_validation_witness :
    mainStartup 8765 = StartupResult.serve ↔ (0 < (8765 : Int) ∧ (8765 : Int) < 65535) :=
  C9_port_validation 8765
